import Mathlib

/-!
Formal model of the survey traverse tool (`create_kml_file/src/main.rs`).

Strings are modelled as lists of characters.  Rust slices `&str` by *byte*
index while the program computes indices by counting *characters*
(`chars().count()`), so byte-indexed slicing of UTF-8 text is modelled
exactly: `sliceTake`/`sliceDrop` return `none` when the byte index is not a
character boundary, which is the Lean rendering of the Rust panic
`byte index .. is not a char boundary`.  IEEE-754 doubles are modelled as
exact rationals.  The geodesic-destination routine of the external `geo`
crate is taken as a parameter of the walk, since it is library code outside
this repository.
-/

namespace Survey

/-- Rust `char::is_ascii_whitespace`: space, tab, line feed, form feed,
carriage return.  This is the predicate used by `SplitWhitespaceN`. -/
def isAsciiWs (c : Char) : Bool :=
  c.toNat == 9 || c.toNat == 10 || c.toNat == 12 || c.toNat == 13 || c.toNat == 32

/-- Rust `char::is_whitespace` (the Unicode White_Space property), the
predicate used by `str::trim`. -/
def isRustWs (c : Char) : Bool :=
  c.toNat == 9 || c.toNat == 10 || c.toNat == 11 || c.toNat == 12 || c.toNat == 13 ||
  c.toNat == 32 || c.toNat == 0x85 || c.toNat == 0xA0 || c.toNat == 0x1680 ||
  c.toNat == 0x2000 || c.toNat == 0x2001 || c.toNat == 0x2002 || c.toNat == 0x2003 ||
  c.toNat == 0x2004 || c.toNat == 0x2005 || c.toNat == 0x2006 || c.toNat == 0x2007 ||
  c.toNat == 0x2008 || c.toNat == 0x2009 || c.toNat == 0x200A || c.toNat == 0x2028 ||
  c.toNat == 0x2029 || c.toNat == 0x202F || c.toNat == 0x205F || c.toNat == 0x3000

/-- Number of bytes of the UTF-8 encoding of one character. -/
def utf8Len (c : Char) : Nat :=
  if c.toNat < 0x80 then 1
  else if c.toNat < 0x800 then 2
  else if c.toNat < 0x10000 then 3
  else 4

/-- Rust `&s[..i]` on a string slice: the first `i` *bytes*, provided `i`
is a character boundary; `none` models the boundary panic. -/
def sliceTake : List Char → Nat → Option (List Char)
  | _, 0 => some []
  | [], _ + 1 => none
  | c :: cs, i + 1 =>
    if utf8Len c ≤ i + 1 then
      match sliceTake cs (i + 1 - utf8Len c) with
      | none => none
      | some ts => some (c :: ts)
    else none

/-- Rust `&s[i..]` on a string slice: everything from byte `i` on, provided
`i` is a character boundary; `none` models the boundary panic. -/
def sliceDrop : List Char → Nat → Option (List Char)
  | s, 0 => some s
  | [], _ + 1 => none
  | c :: cs, i + 1 =>
    if utf8Len c ≤ i + 1 then sliceDrop cs (i + 1 - utf8Len c) else none

/-- The iterator state of `SplitWhitespaceN` from `main.rs`. -/
structure SplitWhitespaceN where
  remaining : List Char
  times : Nat

/-- `SplitWhitespaceN::new`: counts the leading ASCII-whitespace characters
and slices the string at that count used as a byte index. -/
def SplitWhitespaceN.new (data : List Char) (times : Nat) : Option SplitWhitespaceN :=
  let start := (data.takeWhile isAsciiWs).length
  match sliceDrop data start with
  | none => none
  | some r => some ⟨r, times⟩

/-- `<SplitWhitespaceN as Iterator>::next`.  The source tests
`self.times > 0` (else the iterator is exhausted), decrements, and on
reaching zero yields the whole remainder; the three cases below are
`times = 0`, `times = 1` and `times ≥ 2` of exactly that logic.  The outer
`none` models a slicing panic; the inner `none` is Rust's `None`
(exhaustion).  Note that `end` and `new_start` are *character* counts used
as *byte* indices, exactly as in the source. -/
def SplitWhitespaceN.next : SplitWhitespaceN → Option (Option (List Char) × SplitWhitespaceN)
  | ⟨rem, 0⟩ => some (none, ⟨rem, 0⟩)
  | ⟨rem, 1⟩ => some (some rem, ⟨rem, 0⟩)
  | ⟨rem, t + 2⟩ =>
    match sliceTake rem (rem.takeWhile (fun c => !isAsciiWs c)).length,
        sliceDrop rem (rem.takeWhile (fun c => !isAsciiWs c)).length with
    | some nxt, some rem1 =>
      match sliceDrop rem1 (rem1.takeWhile isAsciiWs).length with
      | some rem2 => some (some nxt, ⟨rem2, t + 1⟩)
      | none => none
    | _, _ => none

/-- Draining the iterator into a list, as `collect`/`collect_tuple` do.
The fuel argument is always called with `times + 1`, which exceeds the
number of `next` calls needed to reach exhaustion. -/
def collectAux : Nat → SplitWhitespaceN → Option (List (List Char))
  | 0, _ => some []
  | fuel + 1, st =>
    match st.next with
    | none => none
    | some (none, _) => some []
    | some (some tok, st1) =>
      match collectAux fuel st1 with
      | none => none
      | some ts => some (tok :: ts)

/-- `split_whitespace_n(data, times).collect()`: `none` models a panic. -/
def splitWhitespaceN (data : List Char) (times : Nat) : Option (List (List Char)) :=
  match SplitWhitespaceN.new data times with
  | none => none
  | some st => collectAux (st.times + 1) st

/-- The tokenization rule as the specification words it: strip leading
whitespace; the first `n - 1` tokens are the successive maximal runs of
non-whitespace characters (empty once the input is exhausted), each
followed by discarding the whitespace run after it; the final token is the
entire remainder (whose leading whitespace was discarded by the previous
step).  `specSplit` assumes leading whitespace is already stripped;
`specSplitN` is the top-level rule. -/
def specSplit : List Char → Nat → List (List Char)
  | _, 0 => []
  | s, 1 => [s]
  | s, n + 2 =>
    s.takeWhile (fun c => !isAsciiWs c) ::
      specSplit ((s.dropWhile (fun c => !isAsciiWs c)).dropWhile isAsciiWs) (n + 1)

/-- Top-level form of the specification tokenization rule. -/
def specSplitN (s : List Char) (n : Nat) : List (List Char) :=
  specSplit (s.dropWhile isAsciiWs) n

/-- Rust `str::trim`: remove Unicode whitespace from both ends. -/
def rustTrim (s : List Char) : List Char :=
  (((s.dropWhile isRustWs).reverse).dropWhile isRustWs).reverse

/-- Value of a run of decimal digits. -/
def digitsToNat (ds : List Char) : Nat :=
  ds.foldl (fun a c => 10 * a + (c.toNat - 48)) 0

/-- Models Rust `str::parse::<f64>` on plain decimal notation: an optional
sign, an integer digit run, an optional fractional digit run after a dot,
with at least one digit overall.  Arithmetic is exact rational in place of
IEEE-754 rounding; exponent and inf/nan forms, which never occur in this
program's data, are not modelled.  The empty string and any other
malformed field yield `none`, as `parse` yields `Err`. -/
def parseF64 (s : List Char) : Option ℚ :=
  let sgn : Bool × List Char :=
    match s with
    | '-' :: t => (true, t)
    | '+' :: t => (false, t)
    | _ => (false, s)
  let t := sgn.2
  let intPart := t.takeWhile Char.isDigit
  let rest := t.dropWhile Char.isDigit
  let fin : Option ℚ :=
    match rest with
    | [] => if intPart.isEmpty then none else some (digitsToNat intPart)
    | '.' :: frac =>
      if frac.all Char.isDigit && !(intPart.isEmpty && frac.isEmpty) then
        some ((digitsToNat intPart : ℚ) + (digitsToNat frac : ℚ) / 10 ^ frac.length)
      else none
    | _ => none
  match fin with
  | none => none
  | some q => some (if sgn.1 then -q else q)

/-- The quadrant face of a surveyor bearing, from `main.rs`. -/
inductive FaceDir
  | N
  | S
deriving DecidableEq

/-- `FromStr for FaceDir`: only the exact strings `N` and `S` are accepted;
`none` models the `invalid face direction` error. -/
def FaceDir.fromStr (s : List Char) : Option FaceDir :=
  if s = ['N'] then some FaceDir.N
  else if s = ['S'] then some FaceDir.S
  else none

/-- The turn direction of a surveyor bearing, from `main.rs`. -/
inductive TurnDir
  | E
  | W
deriving DecidableEq

/-- `FromStr for TurnDir`: only the exact strings `E` and `W` are accepted;
`none` models the `invalid turn direction` error. -/
def TurnDir.fromStr (s : List Char) : Option TurnDir :=
  if s = ['E'] then some TurnDir.E
  else if s = ['W'] then some TurnDir.W
  else none

/-- `bearing_to_azimuth` from `main.rs`, with rationals for doubles. -/
def bearing_to_azimuth (face : FaceDir) (deg min sec : ℚ) (turn : TurnDir) : ℚ :=
  let angle := deg + min / 60 + sec / 3600
  let az :=
    match face, turn with
    | FaceDir.N, TurnDir.E => 0 + angle
    | FaceDir.N, TurnDir.W => 0 - angle
    | FaceDir.S, TurnDir.E => 180 - angle
    | FaceDir.S, TurnDir.W => 180 + angle
  if az < 0 then az + 360 else az

/-- The bearing-to-azimuth rule exactly as the specification words it:
combine `a = deg + min/60 + sec/3600`, apply the four-case quadrant rule,
and add 360 once if the result is negative. -/
def bearing_to_azimuth_spec (face : FaceDir) (deg min sec : ℚ) (turn : TurnDir) : ℚ :=
  let a := deg + min / 60 + sec / 3600
  let r :=
    match face, turn with
    | FaceDir.N, TurnDir.E => a
    | FaceDir.N, TurnDir.W => -a
    | FaceDir.S, TurnDir.E => 180 - a
    | FaceDir.S, TurnDir.W => 180 + a
  if r < 0 then r + 360 else r

/-- The error conditions raised while parsing one record, each carrying
the raw text of the offending field, mirroring the `bail!`/`context`
messages of `main.rs`. -/
inductive ParseErr
  | splitFailed
  | invalidFace (raw : List Char)
  | invalidDeg (raw : List Char)
  | invalidMin (raw : List Char)
  | invalidSec (raw : List Char)
  | invalidTurn (raw : List Char)
  | invalidDistance (raw : List Char)
  | invalidLat (raw : List Char)
  | invalidLon (raw : List Char)
deriving DecidableEq

/-- Processing of one line of the bearing/distance file, lines 242-277 of
`main.rs`: trim, split into seven tokens, parse face, degrees, minutes,
seconds, turn and distance, convert the bearing to an azimuth and the
distance from feet to meters.  The outer `none` models a slicing panic
inside `split_whitespace_n`; `Except.error` models the `bail!`/`?` early
returns. -/
def parseBearingLine (line0 : List Char) : Option (Except ParseErr (ℚ × ℚ × List Char)) :=
  let line := rustTrim line0
  match splitWhitespaceN line 7 with
  | none => none
  | some [face, deg, min, sec, turn, dist, nm] =>
    match FaceDir.fromStr face with
    | none => some (Except.error (ParseErr.invalidFace face))
    | some f =>
      match parseF64 deg with
      | none => some (Except.error (ParseErr.invalidDeg deg))
      | some d =>
        match parseF64 min with
        | none => some (Except.error (ParseErr.invalidMin min))
        | some mi =>
          match parseF64 sec with
          | none => some (Except.error (ParseErr.invalidSec sec))
          | some se =>
            match TurnDir.fromStr turn with
            | none => some (Except.error (ParseErr.invalidTurn turn))
            | some t =>
              match parseF64 dist with
              | none => some (Except.error (ParseErr.invalidDistance dist))
              | some df =>
                some (Except.ok (bearing_to_azimuth f d mi se t, df * (3048 / 10000), nm))
  | some _ => some (Except.error ParseErr.splitFailed)

/-- The loop of `get_azimuth_distance` over the lines of the file: the
first failing line aborts with its error (the `?` propagation); a panic
aborts everything.  File I/O itself is external and not modelled. -/
def getAzimuthDistance : List (List Char) → Option (Except ParseErr (List (ℚ × ℚ × List Char)))
  | [] => some (Except.ok [])
  | l :: ls =>
    match parseBearingLine l with
    | none => none
    | some (Except.error e) => some (Except.error e)
    | some (Except.ok t) =>
      match getAzimuthDistance ls with
      | none => none
      | some (Except.error e) => some (Except.error e)
      | some (Except.ok ts) => some (Except.ok (t :: ts))

/-- A geographic point as in `geo::Point`: `x` is longitude, `y` latitude. -/
structure Point where
  x : ℚ
  y : ℚ
deriving DecidableEq

/-- `NamedPoint` from `main.rs`: a point with a label. -/
structure NamedPoint where
  point : Point
  name : List Char
deriving DecidableEq

/-- Parsing of the starting-location line, lines 148-161 of `main.rs`:
trim, split into three tokens, parse latitude and longitude, and build
`Point::new(lon, lat)` with the remainder as the name. -/
def parseStartLine (s0 : List Char) : Option (Except ParseErr NamedPoint) :=
  let s := rustTrim s0
  match splitWhitespaceN s 3 with
  | none => none
  | some [lat, lon, nm] =>
    match parseF64 lat with
    | none => some (Except.error (ParseErr.invalidLat lat))
    | some la =>
      match parseF64 lon with
      | none => some (Except.error (ParseErr.invalidLon lon))
      | some lo => some (Except.ok ⟨⟨lo, la⟩, nm⟩)
  | some _ => some (Except.error ParseErr.splitFailed)

/-- The loop body of `calc_bounds`: each leg's point is the destination
function applied to the *previous* point (`bounds[idx].point`), so the
walk is cumulative.  `gd` is the external
`geo::...::geodesic_destination(azimuth, distance)` routine, taken as a
parameter. -/
def walk (gd : Point → ℚ → ℚ → Point) : Point → List (ℚ × ℚ × List Char) → List NamedPoint
  | _, [] => []
  | p, (az, dist, nm) :: rest =>
    let q := gd p az dist
    ⟨q, nm⟩ :: walk gd q rest

/-- The full walked sequence built by `calc_bounds` before closure
trimming: the starting point followed by one point per leg. -/
def boundsSeq (gd : Point → ℚ → ℚ → Point) (start : NamedPoint)
    (azDist : List (ℚ × ℚ × List Char)) : List NamedPoint :=
  start :: walk gd start.point azDist

/-- Which axis the closure check rejected, mirroring the two `ensure!`
messages of `calc_bounds`. -/
inductive CloseErr
  | xMismatch
  | yMismatch
deriving DecidableEq

/-- `calc_bounds`, lines 300-336 of `main.rs`: walk the legs, compare the
last point against the first on each axis with tolerance `0.000001`, and
on success pop the final point. -/
def calc_bounds (gd : Point → ℚ → ℚ → Point) (start : NamedPoint)
    (azDist : List (ℚ × ℚ × List Char)) : Except CloseErr (List NamedPoint) :=
  let bounds := boundsSeq gd start azDist
  let last := bounds.getLastD start
  if |last.point.x - start.point.x| < 1 / 1000000 then
    if |last.point.y - start.point.y| < 1 / 1000000 then Except.ok bounds.dropLast
    else Except.error CloseErr.yMismatch
  else Except.error CloseErr.xMismatch

/-- A concrete destination function used for closed instances: travel by
the azimuth on the x axis and the distance on the y axis. -/
def gdShift : Point → ℚ → ℚ → Point :=
  fun p az dist => ⟨p.x + az, p.y + dist⟩

/-- A concrete destination function that never moves, exhibiting legs
whose destination coincides exactly with their origin. -/
def gdConst : Point → ℚ → ℚ → Point :=
  fun p _ _ => p

/-- A sample starting point at the origin. -/
def P0 : NamedPoint :=
  ⟨⟨0, 0⟩, []⟩

/-- A single whitespace-separated field: non-empty, free of whitespace
(Unicode, hence also ASCII), and ASCII-only. -/
abbrev fieldTok (f : List Char) : Prop :=
  f ≠ [] ∧ ∀ c ∈ f, isRustWs c = false ∧ c.toNat < 128

/-- A run of ASCII whitespace characters (a field separator). -/
abbrev wsTok (w : List Char) : Prop :=
  ∀ c ∈ w, isAsciiWs c = true

/-! Helper lemmas about characters and byte-indexed slicing. -/

lemma asciiWs_isRustWs {c : Char} (h : isAsciiWs c = true) : isRustWs c = true := by
  simp only [isAsciiWs, Bool.or_eq_true, beq_iff_eq] at h
  simp only [isRustWs, Bool.or_eq_true, beq_iff_eq]
  tauto

lemma asciiWs_lt128 {c : Char} (h : isAsciiWs c = true) : c.toNat < 128 := by
  simp only [isAsciiWs, Bool.or_eq_true, beq_iff_eq] at h
  rcases h with ((((h | h) | h) | h) | h) <;> omega

lemma utf8Len_of_lt128 {c : Char} (h : c.toNat < 128) : utf8Len c = 1 := by
  rw [utf8Len, if_pos]
  omega

lemma asciiWs_utf8Len {c : Char} (h : isAsciiWs c = true) : utf8Len c = 1 :=
  utf8Len_of_lt128 (asciiWs_lt128 h)

/-- Slicing at the byte length of a `takeWhile` segment of one-byte
characters drops exactly that segment. -/
lemma sliceDrop_takeWhile (p : Char → Bool) (s : List Char)
    (h : ∀ c ∈ s.takeWhile p, utf8Len c = 1) :
    sliceDrop s (s.takeWhile p).length = some (s.dropWhile p) := by
  induction s with
  | nil => rfl
  | cons c cs ih =>
    by_cases hp : p c
    · rw [List.takeWhile_cons_of_pos hp] at h ⊢
      rw [List.dropWhile_cons_of_pos hp]
      have hc : utf8Len c = 1 := h c (List.mem_cons_self c _)
      simp only [List.length_cons, sliceDrop, hc]
      rw [if_pos (by omega)]
      simpa using ih (fun d hd => h d (List.mem_cons_of_mem c hd))
    · rw [List.takeWhile_cons_of_neg hp]
      rw [List.dropWhile_cons_of_neg hp]
      rfl

/-- Taking at the byte length of a `takeWhile` segment of one-byte
characters yields exactly that segment. -/
lemma sliceTake_takeWhile (p : Char → Bool) (s : List Char)
    (h : ∀ c ∈ s.takeWhile p, utf8Len c = 1) :
    sliceTake s (s.takeWhile p).length = some (s.takeWhile p) := by
  induction s with
  | nil => rfl
  | cons c cs ih =>
    by_cases hp : p c
    · rw [List.takeWhile_cons_of_pos hp] at h ⊢
      have hc : utf8Len c = 1 := h c (List.mem_cons_self c _)
      simp only [List.length_cons, sliceTake, hc]
      rw [if_pos (by omega)]
      have := ih (fun d hd => h d (List.mem_cons_of_mem c hd))
      simp only [Nat.add_sub_cancel] at this ⊢
      rw [this]
    · rw [List.takeWhile_cons_of_neg hp]
      rfl

lemma new_eq (data : List Char) (times : Nat) :
    SplitWhitespaceN.new data times = some ⟨data.dropWhile isAsciiWs, times⟩ := by
  rw [SplitWhitespaceN.new]
  rw [sliceDrop_takeWhile isAsciiWs data
    (fun c hc => asciiWs_utf8Len (List.mem_takeWhile_imp hc))]

lemma next_zero (s : List Char) :
    SplitWhitespaceN.next ⟨s, 0⟩ = some (none, ⟨s, 0⟩) := rfl

lemma next_one (s : List Char) :
    SplitWhitespaceN.next ⟨s, 1⟩ = some (some s, ⟨s, 0⟩) := rfl

lemma next_step (s : List Char) (k : Nat) (h : ∀ c ∈ s, c.toNat < 128) :
    SplitWhitespaceN.next ⟨s, k + 2⟩ =
      some (some (s.takeWhile (fun c => !isAsciiWs c)),
        ⟨(s.dropWhile (fun c => !isAsciiWs c)).dropWhile isAsciiWs, k + 1⟩) := by
  have h1 := sliceTake_takeWhile (fun c => !isAsciiWs c) s
    (fun c hc => utf8Len_of_lt128 (h c (List.takeWhile_subset _ hc)))
  have h2 := sliceDrop_takeWhile (fun c => !isAsciiWs c) s
    (fun c hc => utf8Len_of_lt128 (h c (List.takeWhile_subset _ hc)))
  have h3 := sliceDrop_takeWhile isAsciiWs (s.dropWhile (fun c => !isAsciiWs c))
    (fun c hc => asciiWs_utf8Len (List.mem_takeWhile_imp hc))
  simp only [SplitWhitespaceN.next, h1, h2, h3]

lemma collectAux_succ (fuel : Nat) (st : SplitWhitespaceN) :
    collectAux (fuel + 1) st =
      match st.next with
      | none => none
      | some (none, _) => some []
      | some (some tok, st1) =>
        match collectAux fuel st1 with
        | none => none
        | some ts => some (tok :: ts) := rfl

/-- Draining the iterator computes the specification tokenization, for
all-ASCII input. -/
lemma collect_spec : ∀ (n : Nat) (s : List Char), (∀ c ∈ s, c.toNat < 128) →
    collectAux (n + 1) ⟨s, n⟩ = some (specSplit s n) := by
  intro n
  induction n with
  | zero => intro s _; rfl
  | succ m ih =>
    intro s hs
    match m with
    | 0 => rfl
    | k + 1 =>
      have hrest : ∀ c ∈ (s.dropWhile (fun c => !isAsciiWs c)).dropWhile isAsciiWs,
          c.toNat < 128 :=
        fun c hc => hs c (List.dropWhile_subset _ (List.dropWhile_subset _ hc))
      rw [collectAux_succ, next_step s k hs]
      simp only [ih _ hrest]
      rfl

/-- For all-ASCII input the custom iterator agrees with the specification
tokenization rule. -/
lemma split_eq_specN (s : List Char) (n : Nat) (h : ∀ c ∈ s, c.toNat < 128) :
    splitWhitespaceN s n = some (specSplitN s n) := by
  rw [splitWhitespaceN, new_eq]
  exact collect_spec n (s.dropWhile isAsciiWs)
    (fun c hc => h c (List.dropWhile_subset _ hc))

/-- The specification tokenization always yields exactly `n` tokens. -/
lemma specSplit_length : ∀ (n : Nat) (s : List Char), (specSplit s n).length = n := by
  intro n
  induction n with
  | zero => intro s; rfl
  | succ m ih =>
    intro s
    match m with
    | 0 => rfl
    | k + 1 =>
      rw [specSplit]
      simp [ih]

lemma specSplitN_length (s : List Char) (n : Nat) : (specSplitN s n).length = n :=
  specSplit_length n _

/-- Characters of the trimmed line are characters of the line. -/
lemma mem_rustTrim {c : Char} {s : List Char} (h : c ∈ rustTrim s) : c ∈ s := by
  rw [rustTrim] at h
  rw [List.mem_reverse] at h
  have h1 := List.dropWhile_subset _ h
  rw [List.mem_reverse] at h1
  exact List.dropWhile_subset _ h1

/-! Helper lemmas for lines made of whitespace-separated fields. -/

lemma specSplit_two (s : List Char) (n : Nat) :
    specSplit s (n + 2) =
      s.takeWhile (fun c => !isAsciiWs c) ::
        specSplit ((s.dropWhile (fun c => !isAsciiWs c)).dropWhile isAsciiWs) (n + 1) := rfl

/-- A non-whitespace field followed by a whitespace separator is consumed
as exactly one token of the specification rule. -/
lemma specSplit_step (f w rest : List Char) (n : Nat)
    (_hf0 : f ≠ []) (hf : ∀ c ∈ f, isAsciiWs c = false)
    (hw0 : w ≠ []) (hw : ∀ c ∈ w, isAsciiWs c = true) :
    specSplit (f ++ (w ++ rest)) (n + 2) =
      f :: specSplit (rest.dropWhile isAsciiWs) (n + 1) := by
  obtain ⟨cw, w1, rfl⟩ := List.exists_cons_of_ne_nil hw0
  have hcw : isAsciiWs cw = true := hw cw (List.mem_cons_self _ _)
  have htake : (f ++ (cw :: w1 ++ rest)).takeWhile (fun c => !isAsciiWs c) = f := by
    rw [List.takeWhile_append_of_pos (by simpa using hf)]
    rw [List.cons_append, List.takeWhile_cons_of_neg (by simp [hcw])]
    simp
  have hdrop : (f ++ (cw :: w1 ++ rest)).dropWhile (fun c => !isAsciiWs c) =
      cw :: w1 ++ rest := by
    rw [List.dropWhile_append_of_pos (by simpa using hf)]
    rw [List.cons_append, List.dropWhile_cons_of_neg (by simp [hcw])]
  rw [specSplit_two, htake, hdrop]
  rw [show (cw :: w1 ++ rest : List Char) = (cw :: w1) ++ rest from by simp]
  rw [List.dropWhile_append_of_pos hw]

/-- A lone trailing field becomes one token and two empty padding tokens. -/
lemma specSplit_last (f : List Char)
    (hf : ∀ c ∈ f, isAsciiWs c = false) :
    specSplit f 3 = [f, [], []] := by
  have htake : f.takeWhile (fun c => !isAsciiWs c) = f :=
    List.takeWhile_eq_self_iff.mpr (by simpa using hf)
  have hdrop : f.dropWhile (fun c => !isAsciiWs c) = [] :=
    List.dropWhile_eq_nil_iff.mpr (by simpa using hf)
  rw [specSplit_two, htake, hdrop]
  rfl

/-- Dropping while a predicate that fails on the head does nothing. -/
lemma dropWhile_field (p : Char → Bool) (f rest : List Char)
    (hf0 : f ≠ []) (hf : ∀ c ∈ f, p c = false) :
    (f ++ rest).dropWhile p = f ++ rest := by
  obtain ⟨c, f1, rfl⟩ := List.exists_cons_of_ne_nil hf0
  rw [List.cons_append, List.dropWhile_cons_of_neg (by simp [hf c (List.mem_cons_self _ _)])]

lemma dropWhile_field_self (p : Char → Bool) (f : List Char)
    (hf0 : f ≠ []) (hf : ∀ c ∈ f, p c = false) :
    f.dropWhile p = f := by
  have h := dropWhile_field p f [] hf0 hf
  rwa [List.append_nil] at h

lemma not_asciiWs_of_not_rustWs {c : Char} (h : isRustWs c = false) :
    isAsciiWs c = false := by
  cases hc : isAsciiWs c with
  | true => rw [asciiWs_isRustWs hc] at h; exact absurd h (by simp)
  | false => rfl

lemma parseF64_nil : parseF64 [] = none := rfl

/-- Rust `trim` removes exactly the surrounding whitespace runs from a
line whose content starts and ends with non-whitespace characters. -/
lemma rustTrim_sandwich (w0 m w5 : List Char)
    (hw0 : ∀ c ∈ w0, isRustWs c = true) (hw5 : ∀ c ∈ w5, isRustWs c = true)
    (hm0 : m ≠ [])
    (h1 : m.dropWhile isRustWs = m)
    (h2 : m.reverse.dropWhile isRustWs = m.reverse) :
    rustTrim (w0 ++ (m ++ w5)) = m := by
  rw [rustTrim]
  rw [List.dropWhile_append_of_pos hw0]
  have hmw : (m ++ w5).dropWhile isRustWs = m ++ w5 := by
    rw [List.dropWhile_append, h1]
    rw [if_neg (by simpa using hm0)]
  rw [hmw, List.reverse_append]
  rw [List.dropWhile_append_of_pos (fun c hc => hw5 c (List.mem_reverse.mp hc))]
  rw [h2, List.reverse_reverse]

/-- A line on which `parseBearingLine` does not succeed prevents the whole
file from succeeding: the loop of `get_azimuth_distance` aborts at the
first failing line. -/
lemma getAz_not_ok {line : List Char}
    (hline : ∀ t, parseBearingLine line ≠ some (Except.ok t)) :
    ∀ lines, line ∈ lines → ∀ res,
      getAzimuthDistance lines ≠ some (Except.ok res) := by
  intro lines
  induction lines with
  | nil => simp
  | cons l ls ih =>
    intro hmem res
    rcases List.mem_cons.mp hmem with rfl | hmem2
    · cases hp : parseBearingLine line with
      | none => simp [getAzimuthDistance, hp]
      | some r =>
        cases r with
        | error e => simp [getAzimuthDistance, hp]
        | ok t => exact absurd hp (hline t)
    · cases hp : parseBearingLine l with
      | none => simp [getAzimuthDistance, hp]
      | some r =>
        cases r with
        | error e => simp [getAzimuthDistance, hp]
        | ok t =>
          cases hrec : getAzimuthDistance ls with
          | none => simp [getAzimuthDistance, hp, hrec]
          | some r2 =>
            cases r2 with
            | error e2 => simp [getAzimuthDistance, hp, hrec]
            | ok ts => exact absurd hrec (ih hmem2 ts)

/-! Helper lemmas about the geodesic walk. -/

lemma walk_length (gd : Point → ℚ → ℚ → Point) :
    ∀ (p : Point) (legs : List (ℚ × ℚ × List Char)),
      (walk gd p legs).length = legs.length := by
  intro p legs
  induction legs generalizing p with
  | nil => rfl
  | cons L rest ih =>
    rcases L with ⟨az, dist, nm⟩
    simp [walk, ih]

lemma boundsSeq_length (gd : Point → ℚ → ℚ → Point) (start : NamedPoint)
    (legs : List (ℚ × ℚ × List Char)) :
    (boundsSeq gd start legs).length = legs.length + 1 := by
  simp [boundsSeq, walk_length]

lemma boundsSeq_cons (gd : Point → ℚ → ℚ → Point) (start : NamedPoint)
    (az dist : ℚ) (nm : List Char) (rest : List (ℚ × ℚ × List Char)) :
    boundsSeq gd start ((az, dist, nm) :: rest) =
      start :: boundsSeq gd ⟨gd start.point az dist, nm⟩ rest := by
  simp [boundsSeq, walk]

lemma boundsSeq_get (gd : Point → ℚ → ℚ → Point) :
    ∀ (legs : List (ℚ × ℚ × List Char)) (start : NamedPoint) (i : Nat)
      (az dist : ℚ) (nm : List Char), legs[i]? = some (az, dist, nm) →
      ∃ p, (boundsSeq gd start legs)[i]? = some p ∧
        (boundsSeq gd start legs)[i + 1]? = some ⟨gd p.point az dist, nm⟩ := by
  intro legs
  induction legs with
  | nil => intro start i az dist nm h; simp at h
  | cons L rest ih =>
    rcases L with ⟨a, d, m⟩
    intro start i az dist nm h
    cases i with
    | zero =>
      simp only [List.getElem?_cons_zero, Option.some.injEq, Prod.mk.injEq] at h
      obtain ⟨rfl, rfl, rfl⟩ := h
      refine ⟨start, ?_, ?_⟩
      · simp [boundsSeq]
      · simp [boundsSeq, walk]
    | succ j =>
      simp only [List.getElem?_cons_succ] at h
      obtain ⟨p, h1, h2⟩ := ih ⟨gd start.point a d, m⟩ j az dist nm h
      refine ⟨p, ?_, ?_⟩
      · rw [boundsSeq_cons, List.getElem?_cons_succ]
        exact h1
      · rw [boundsSeq_cons, List.getElem?_cons_succ]
        exact h2

lemma calc_bounds_ok {gd : Point → ℚ → ℚ → Point} {start : NamedPoint}
    {legs : List (ℚ × ℚ × List Char)} {bs : List NamedPoint}
    (h : calc_bounds gd start legs = Except.ok bs) :
    bs = (boundsSeq gd start legs).dropLast := by
  rw [calc_bounds] at h
  split_ifs at h
  simpa using h.symm

/-! Claim theorems. -/

/-- C1: closure validation fails exactly when the final walked point
differs from the starting point by at least `1e-6` degrees on either the
x (longitude) axis or the y (latitude) axis, each axis compared
independently with absolute difference; in particular a closing error of
exactly `9.9e-7` on both axes passes, while `1.1e-6` on either single
axis fails on that axis. -/
theorem c1_closure_tolerance :
    (∀ (gd : Point → ℚ → ℚ → Point) (start : NamedPoint)
      (legs : List (ℚ × ℚ × List Char)),
      (∃ e, calc_bounds gd start legs = Except.error e) ↔
        ((1 : ℚ) / 1000000 ≤
            |((boundsSeq gd start legs).getLastD start).point.x - start.point.x| ∨
          (1 : ℚ) / 1000000 ≤
            |((boundsSeq gd start legs).getLastD start).point.y - start.point.y|)) ∧
    calc_bounds gdShift P0 [((99 : ℚ) / 100000000, (99 : ℚ) / 100000000, [])] =
      Except.ok [P0] ∧
    calc_bounds gdShift P0 [((11 : ℚ) / 10000000, 0, [])] =
      Except.error CloseErr.xMismatch ∧
    calc_bounds gdShift P0 [(0, (11 : ℚ) / 10000000, [])] =
      Except.error CloseErr.yMismatch := by
  refine ⟨?_, ?_, ?_, ?_⟩
  · intro gd start legs
    rw [calc_bounds]
    split_ifs with h1 h2
    · constructor
      · rintro ⟨e, he⟩
        simp at he
      · rintro (hx | hy) <;> linarith
    · constructor
      · intro _
        right
        linarith [not_lt.mp h2]
      · intro _
        exact ⟨CloseErr.yMismatch, rfl⟩
    · constructor
      · intro _
        left
        linarith [not_lt.mp h1]
      · intro _
        exact ⟨CloseErr.xMismatch, rfl⟩
  · simp [calc_bounds, boundsSeq, walk, gdShift, P0]
    norm_num [abs_of_nonneg]
  · simp [calc_bounds, boundsSeq, walk, gdShift, P0]
    norm_num [abs_of_nonneg]
  · simp [calc_bounds, boundsSeq, walk, gdShift, P0]
    norm_num [abs_of_nonneg]

/-- C4: the walked sequence has one more element than the number of legs,
begins with the starting point, and each later element is the destination
function applied to the immediately preceding element with that leg's
azimuth and distance (a cumulative walk, not a star pattern). -/
theorem c4_walk_cumulative :
    ∀ (gd : Point → ℚ → ℚ → Point) (start : NamedPoint)
      (legs : List (ℚ × ℚ × List Char)),
      (boundsSeq gd start legs).length = legs.length + 1 ∧
      (boundsSeq gd start legs).head? = some start ∧
      ∀ (i : Nat) (az dist : ℚ) (nm : List Char),
        legs[i]? = some (az, dist, nm) →
        ∃ p, (boundsSeq gd start legs)[i]? = some p ∧
          (boundsSeq gd start legs)[i + 1]? = some ⟨gd p.point az dist, nm⟩ := by
  intro gd start legs
  refine ⟨boundsSeq_length gd start legs, by simp [boundsSeq], ?_⟩
  intro i az dist nm h
  exact boundsSeq_get gd legs start i az dist nm h

/-- C4 witness: a concrete two-leg walk, checked at leg index 1. -/
theorem c4_walk_cumulative_witness :
    ∃ p, (boundsSeq gdShift P0 [(1, 2, ['a']), (3, 4, ['b'])])[1]? = some p ∧
      (boundsSeq gdShift P0 [(1, 2, ['a']), (3, 4, ['b'])])[2]? =
        some ⟨gdShift p.point 3 4, ['b']⟩ :=
  (c4_walk_cumulative gdShift P0 [(1, 2, ['a']), (3, 4, ['b'])]).2.2 1 3 4 ['b'] rfl

/-- C5 counterexample: with a destination function whose legs return
exactly to their origin, a one-leg traverse passes closure validation and
retains a single point, so the final retained point *is* the first; and a
zero-leg traverse passes closure validation and retains nothing at all,
so no retained first point equals the starting point. -/
theorem c5_trim_counterexample :
    calc_bounds gdConst P0 [(5, 5, ['a'])] = Except.ok [P0] ∧
      calc_bounds gdConst P0 [] = Except.ok [] := by
  constructor
  · simp [calc_bounds, boundsSeq, walk, gdConst, P0]
  · simp [calc_bounds, boundsSeq, walk, gdConst, P0]

/-- C5 (amended): when closure validation succeeds, `calc_bounds` returns
the walked sequence with exactly its final element removed and all other
elements unchanged in value and order, so `n` legs yield exactly `n`
retained points; when there is at least one leg the first retained point
is the original starting point.  (The final retained point may coincide
with the first.) -/
theorem c5_trim_keeps_rest :
    ∀ (gd : Point → ℚ → ℚ → Point) (start : NamedPoint)
      (legs : List (ℚ × ℚ × List Char)) (bs : List NamedPoint),
      calc_bounds gd start legs = Except.ok bs →
      bs = (boundsSeq gd start legs).dropLast ∧
      bs.length = legs.length ∧
      (legs ≠ [] → bs.head? = some start) := by
  intro gd start legs bs h
  have hb := calc_bounds_ok h
  refine ⟨hb, ?_, ?_⟩
  · rw [hb, List.length_dropLast, boundsSeq_length]
    simp
  · intro hne
    have hwne : walk gd start.point legs ≠ [] := by
      intro hw
      apply hne
      have hl := walk_length gd start.point legs
      rw [hw] at hl
      exact List.length_eq_zero.mp hl.symm
    obtain ⟨w, ws, hw⟩ := List.exists_cons_of_ne_nil hwne
    rw [hb, boundsSeq, hw, List.dropLast_cons₂]
    rfl

/-- C5 witness: a concrete one-leg closed traverse. -/
theorem c5_trim_keeps_rest_witness :
    ([P0] : List NamedPoint) = (boundsSeq gdShift P0 [(0, 0, ['a'])]).dropLast ∧
      ([P0] : List NamedPoint).length = ([((0 : ℚ), (0 : ℚ), ['a'])] : List (ℚ × ℚ × List Char)).length ∧
      (([((0 : ℚ), (0 : ℚ), ['a'])] : List (ℚ × ℚ × List Char)) ≠ [] →
        ([P0] : List NamedPoint).head? = some P0) :=
  c5_trim_keeps_rest gdShift P0 [(0, 0, ['a'])] [P0]
    (by simp [calc_bounds, boundsSeq, walk, gdShift, P0])

/-- C2 counterexample: the inputs face = S, deg = 180, min = 0, sec = 0,
turn = W satisfy the claim's bounds (non-negative degrees, minutes in
0-59, seconds in 0-60), yet the returned azimuth is 360, outside
[0, 360): the wraparound adds 360 only to negative results, never
subtracts from results of 360 or more. -/
theorem c2_azimuth_range_counterexample :
    ¬ bearing_to_azimuth FaceDir.S 180 0 0 TurnDir.W < 360 := by
  norm_num [bearing_to_azimuth]

/-- C2 (amended): for every valid face and turn token and every angle
formed from a non-negative degrees value, minutes in 0-59 and seconds in
0-60 *whose combined angle `deg + min/60 + sec/3600` is below 180
degrees*, `bearing_to_azimuth` returns a value in [0, 360). -/
theorem c2_azimuth_range :
    ∀ (f : FaceDir) (t : TurnDir) (d m s : ℚ),
      0 ≤ d → 0 ≤ m → m ≤ 59 → 0 ≤ s → s ≤ 60 →
      d + m / 60 + s / 3600 < 180 →
      0 ≤ bearing_to_azimuth f d m s t ∧ bearing_to_azimuth f d m s t < 360 := by
  intro f t d m s hd hm0 hm1 hs0 hs1 hlt
  have ha0 : 0 ≤ d + m / 60 + s / 3600 := by positivity
  cases f <;> cases t <;>
    · rw [bearing_to_azimuth]
      split_ifs with h <;> constructor <;> linarith

/-- C2 witness: a north 30 deg 15 min east bearing lies in [0, 360). -/
theorem c2_azimuth_range_witness :
    0 ≤ bearing_to_azimuth FaceDir.N 30 15 0 TurnDir.E ∧
      bearing_to_azimuth FaceDir.N 30 15 0 TurnDir.E < 360 :=
  c2_azimuth_range FaceDir.N TurnDir.E 30 15 0 (by norm_num) (by norm_num)
    (by norm_num) (by norm_num) (by norm_num) (by norm_num)

/-- C3: `bearing_to_azimuth` computes exactly the rule stated by the
specification: combine `a = deg + min/60 + sec/3600`, map the four
face/turn cases to `a`, `-a`, `180 - a`, `180 + a`, and add 360 once when
the result is negative. -/
theorem c3_azimuth_rule :
    ∀ (f : FaceDir) (t : TurnDir) (d m s : ℚ),
      bearing_to_azimuth f d m s t = bearing_to_azimuth_spec f d m s t := by
  intro f t d m s
  cases f <;> cases t <;>
    simp [bearing_to_azimuth, bearing_to_azimuth_spec, zero_add, zero_sub, neg_div]

/-- C7: parsing a face token succeeds exactly on the single uppercase
letters N and S, and parsing a turn token succeeds exactly on the single
uppercase letters E and W; every other token fails (the invalid-direction
error). -/
theorem c7_direction_tokens :
    ∀ s : List Char,
      ((FaceDir.fromStr s).isSome ↔ s = ['N'] ∨ s = ['S']) ∧
      ((TurnDir.fromStr s).isSome ↔ s = ['E'] ∨ s = ['W']) := by
  intro s
  constructor
  · rw [FaceDir.fromStr]
    split_ifs with h1 h2
    · simp [h1]
    · simp [h2]
    · simp [h1, h2]
  · rw [TurnDir.fromStr]
    split_ifs with h1 h2
    · simp [h1]
    · simp [h2]
    · simp [h1, h2]

/-- C6 counterexample: on the line `éé x` with two tokens requested, the
iterator slices the first token at byte index 2 (the *character* count of
the two-character run), splitting the two-byte-per-character run in half:
it yields `é` and `é x` where the claimed tokenization rule yields `éé`
and `x`. -/
theorem c6_tokenize_counterexample :
    splitWhitespaceN ['é', 'é', ' ', 'x'] 2 = some [['é'], ['é', ' ', 'x']] ∧
      specSplitN ['é', 'é', ' ', 'x'] 2 = [['é', 'é'], ['x']] :=
  ⟨rfl, rfl⟩

/-- C6 (amended): for every line of *ASCII* characters and every
`n ≥ 1`, `split_whitespace_n` tokenizes the line exactly as described:
strip leading whitespace, yield the first `n - 1` maximal non-whitespace
runs, and yield as the final token the remainder with its leading
whitespace stripped. -/
theorem c6_tokenize :
    ∀ (s : List Char) (n : Nat), (∀ c ∈ s, c.toNat < 128) → 1 ≤ n →
      splitWhitespaceN s n = some (specSplitN s n) :=
  fun s n h _ => split_eq_specN s n h

/-- C6 witness: a concrete ASCII line. -/
theorem c6_tokenize_witness :
    splitWhitespaceN ['a', ' ', 'b'] 2 = some (specSplitN ['a', ' ', 'b'] 2) :=
  c6_tokenize ['a', ' ', 'b'] 2 (by decide) (by norm_num)

/-- A list of length 3 is an explicit three-element list. -/
lemma three_of_length {α : Type} {l : List α} (h : l.length = 3) :
    ∃ a b c, l = [a, b, c] := by
  match l, h with
  | [a, b, c], _ => exact ⟨a, b, c, rfl⟩

/-- A list of length 7 is an explicit seven-element list. -/
lemma seven_of_length {α : Type} {l : List α} (h : l.length = 7) :
    ∃ a b c d e f g, l = [a, b, c, d, e, f, g] := by
  match l, h with
  | [a, b, c, d, e, f, g], _ => exact ⟨a, b, c, d, e, f, g, rfl⟩

/-- C9 counterexample: on the input `é x` with two tokens requested the
program does *not* yield two items: slicing the first token at byte index
1 (the character count) falls inside the two-byte character `é`, which in
Rust panics with `byte index 1 is not a char boundary` (`none` here). -/
theorem c9_split_total_counterexample :
    splitWhitespaceN ['é', ' ', 'x'] 2 = none := rfl

/-- C9 (amended): for every *ASCII* input string, including the empty
string and strings with fewer fields than requested, and every `n ≥ 1`,
`split_whitespace_n` yields exactly `n` items without panicking, padding
with empty tokens once the input is exhausted; consequently
`collect_tuple` over `n` requested items succeeds and the
`failed to split` branches of `get_starting_location` and
`get_azimuth_distance` are unreachable. -/
theorem c9_split_total :
    ∀ (s : List Char) (n : Nat), (∀ c ∈ s, c.toNat < 128) → 1 ≤ n →
      (∃ ts, splitWhitespaceN s n = some ts ∧ ts.length = n) ∧
      parseStartLine s ≠ some (Except.error ParseErr.splitFailed) ∧
      parseBearingLine s ≠ some (Except.error ParseErr.splitFailed) := by
  intro s n hs _
  have hst : ∀ c ∈ rustTrim s, c.toNat < 128 := fun c hc => hs c (mem_rustTrim hc)
  refine ⟨⟨specSplitN s n, split_eq_specN s n hs, specSplitN_length s n⟩, ?_, ?_⟩
  · obtain ⟨a, b, c, habc⟩ := three_of_length (specSplitN_length (rustTrim s) 3)
    have h3 := split_eq_specN (rustTrim s) 3 hst
    rw [habc] at h3
    simp only [parseStartLine, h3]
    cases parseF64 a <;> cases parseF64 b <;> simp
  · obtain ⟨a, b, c, d, e, f, g, habc⟩ :=
      seven_of_length (specSplitN_length (rustTrim s) 7)
    have h7 := split_eq_specN (rustTrim s) 7 hst
    rw [habc] at h7
    simp only [parseBearingLine, h7]
    cases FaceDir.fromStr a <;> cases parseF64 b <;> cases parseF64 c <;>
      cases parseF64 d <;> cases TurnDir.fromStr e <;> cases parseF64 f <;> simp

/-- C9 witness: a concrete short ASCII line, split into three items. -/
theorem c9_split_total_witness :
    (∃ ts, splitWhitespaceN ['a', ' ', 'b'] 3 = some ts ∧ ts.length = 3) ∧
      parseStartLine ['a', ' ', 'b'] ≠ some (Except.error ParseErr.splitFailed) ∧
      parseBearingLine ['a', ' ', 'b'] ≠ some (Except.error ParseErr.splitFailed) :=
  c9_split_total ['a', ' ', 'b'] 3 (by decide) (by norm_num)

/-- C10: every blank or whitespace-only line of the bearing/distance file
fails: it trims to the empty string, all seven tokens are empty, and the
empty face token is rejected as an invalid face direction; consequently
the whole file can never be processed successfully, so blank lines are
never silently skipped. -/
theorem c10_blank_line_fails :
    ∀ line : List Char, (∀ c ∈ line, isRustWs c = true) →
      parseBearingLine line = some (Except.error (ParseErr.invalidFace [])) ∧
      ∀ (lines : List (List Char)) (res : List (ℚ × ℚ × List Char)),
        line ∈ lines → getAzimuthDistance lines ≠ some (Except.ok res) := by
  intro line h
  have htrim : rustTrim line = [] := by
    have h0 : line.dropWhile isRustWs = [] :=
      List.dropWhile_eq_nil_iff.mpr (by simpa using h)
    rw [rustTrim, h0]
    rfl
  have hfail : parseBearingLine line = some (Except.error (ParseErr.invalidFace [])) := by
    simp only [parseBearingLine, htrim]
    rfl
  refine ⟨hfail, ?_⟩
  intro lines res hmem
  exact getAz_not_ok (fun t ht => by rw [hfail] at ht; simp at ht) lines hmem res

/-- C10 witness: a single-space line, alone in its file. -/
theorem c10_blank_line_fails_witness :
    parseBearingLine [' '] = some (Except.error (ParseErr.invalidFace [])) ∧
      getAzimuthDistance [[' ']] ≠ some (Except.ok []) :=
  ⟨(c10_blank_line_fails [' '] (by decide)).1,
    (c10_blank_line_fails [' '] (by decide)).2 [[' ']] [] (by simp)⟩

/-- Tokenizing five whitespace-separated fields with seven tokens
requested yields the five fields and two empty padding tokens. -/
lemma specSplitN_five (f1 f2 f3 f4 f5 w1 w2 w3 w4 : List Char)
    (h1 : fieldTok f1) (h2 : fieldTok f2) (h3 : fieldTok f3) (h4 : fieldTok f4)
    (h5 : fieldTok f5)
    (hw1 : wsTok w1) (hw2 : wsTok w2) (hw3 : wsTok w3) (hw4 : wsTok w4)
    (n1 : w1 ≠ []) (n2 : w2 ≠ []) (n3 : w3 ≠ []) (n4 : w4 ≠ []) :
    specSplitN (f1 ++ (w1 ++ (f2 ++ (w2 ++ (f3 ++ (w3 ++ (f4 ++ (w4 ++ f5)))))))) 7 =
      [f1, f2, f3, f4, f5, [], []] := by
  have nf : ∀ {f : List Char}, fieldTok f → ∀ c ∈ f, isAsciiWs c = false :=
    fun hf c hc => not_asciiWs_of_not_rustWs (hf.2 c hc).1
  rw [specSplitN, dropWhile_field isAsciiWs f1 _ h1.1 (nf h1)]
  rw [show (7 : Nat) = 5 + 2 from rfl]
  rw [specSplit_step f1 w1 _ 5 h1.1 (nf h1) n1 hw1]
  rw [dropWhile_field isAsciiWs f2 _ h2.1 (nf h2)]
  rw [show (5 + 1 : Nat) = 4 + 2 from rfl]
  rw [specSplit_step f2 w2 _ 4 h2.1 (nf h2) n2 hw2]
  rw [dropWhile_field isAsciiWs f3 _ h3.1 (nf h3)]
  rw [show (4 + 1 : Nat) = 3 + 2 from rfl]
  rw [specSplit_step f3 w3 _ 3 h3.1 (nf h3) n3 hw3]
  rw [dropWhile_field isAsciiWs f4 _ h4.1 (nf h4)]
  rw [show (3 + 1 : Nat) = 2 + 2 from rfl]
  rw [specSplit_step f4 w4 _ 2 h4.1 (nf h4) n4 hw4]
  rw [dropWhile_field_self isAsciiWs f5 h5.1 (nf h5)]
  rw [show (2 + 1 : Nat) = 3 from rfl]
  rw [specSplit_last f5 (nf h5)]

/-- C8 (amended): every *ASCII* bearing/distance line consisting of
exactly five whitespace-separated fields (optionally surrounded by
whitespace) fails: some field's parse is rejected with its raw text, the
parcel is never processed successfully (no triple is produced), and when
the five present fields are themselves valid as face, degrees, minutes,
seconds and turn, the error identifies precisely the missing distance
field with its raw text, the empty string. -/
theorem c8_five_field_line :
    ∀ f1 f2 f3 f4 f5 w0 w1 w2 w3 w4 w5 : List Char,
      fieldTok f1 → fieldTok f2 → fieldTok f3 → fieldTok f4 → fieldTok f5 →
      wsTok w0 → wsTok w1 → wsTok w2 → wsTok w3 → wsTok w4 → wsTok w5 →
      w1 ≠ [] → w2 ≠ [] → w3 ≠ [] → w4 ≠ [] →
      (∃ e, parseBearingLine
          (w0 ++ (f1 ++ (w1 ++ (f2 ++ (w2 ++ (f3 ++ (w3 ++ (f4 ++ (w4 ++ (f5 ++ w5)))))))))) =
        some (Except.error e)) ∧
      (∀ (lines : List (List Char)) (res : List (ℚ × ℚ × List Char)),
        (w0 ++ (f1 ++ (w1 ++ (f2 ++ (w2 ++ (f3 ++ (w3 ++ (f4 ++ (w4 ++ (f5 ++ w5)))))))))) ∈ lines →
        getAzimuthDistance lines ≠ some (Except.ok res)) ∧
      ((FaceDir.fromStr f1).isSome → (parseF64 f2).isSome → (parseF64 f3).isSome →
        (parseF64 f4).isSome → (TurnDir.fromStr f5).isSome →
        parseBearingLine
          (w0 ++ (f1 ++ (w1 ++ (f2 ++ (w2 ++ (f3 ++ (w3 ++ (f4 ++ (w4 ++ (f5 ++ w5)))))))))) =
          some (Except.error (ParseErr.invalidDistance []))) := by
  intro f1 f2 f3 f4 f5 w0 w1 w2 w3 w4 w5 h1 h2 h3 h4 h5 hw0 hw1 hw2 hw3 hw4 hw5 n1 n2 n3 n4
  set m := f1 ++ (w1 ++ (f2 ++ (w2 ++ (f3 ++ (w3 ++ (f4 ++ (w4 ++ f5))))))) with hmdef
  have hline :
      w0 ++ (f1 ++ (w1 ++ (f2 ++ (w2 ++ (f3 ++ (w3 ++ (f4 ++ (w4 ++ (f5 ++ w5))))))))) =
        w0 ++ (m ++ w5) := by
    rw [hmdef]
    simp [List.append_assoc]
  have hmne : m ≠ [] := by
    obtain ⟨c, t, hc⟩ := List.exists_cons_of_ne_nil h1.1
    rw [hmdef, hc]
    simp
  have hds : m.dropWhile isRustWs = m := by
    rw [hmdef]
    exact dropWhile_field isRustWs f1 _ h1.1 (fun c hc => (h1.2 c hc).1)
  have hrev : m.reverse.dropWhile isRustWs = m.reverse := by
    rcases hr5 : f5.reverse with _ | ⟨d, t⟩
    · exact absurd (List.reverse_eq_nil_iff.mp hr5) h5.1
    · have hd : isRustWs d = false :=
        (h5.2 d (List.mem_reverse.mp (by rw [hr5]; exact List.mem_cons_self d t))).1
      rw [hmdef]
      simp only [List.reverse_append, List.append_assoc, hr5, List.cons_append]
      rw [List.dropWhile_cons_of_neg (by simp [hd])]
  have htrim : rustTrim
      (w0 ++ (f1 ++ (w1 ++ (f2 ++ (w2 ++ (f3 ++ (w3 ++ (f4 ++ (w4 ++ (f5 ++ w5)))))))))) = m := by
    rw [hline]
    exact rustTrim_sandwich w0 m w5 (fun c hc => asciiWs_isRustWs (hw0 c hc))
      (fun c hc => asciiWs_isRustWs (hw5 c hc)) hmne hds hrev
  have hasc : ∀ c ∈ m, c.toNat < 128 := by
    intro c hc
    rw [hmdef] at hc
    simp only [List.mem_append] at hc
    rcases hc with hc | hc | hc | hc | hc | hc | hc | hc | hc
    exacts [(h1.2 c hc).2, asciiWs_lt128 (hw1 c hc), (h2.2 c hc).2,
      asciiWs_lt128 (hw2 c hc), (h3.2 c hc).2, asciiWs_lt128 (hw3 c hc),
      (h4.2 c hc).2, asciiWs_lt128 (hw4 c hc), (h5.2 c hc).2]
  have hs7 : specSplitN m 7 = [f1, f2, f3, f4, f5, [], []] := by
    rw [hmdef]
    exact specSplitN_five f1 f2 f3 f4 f5 w1 w2 w3 w4 h1 h2 h3 h4 h5 hw1 hw2 hw3 hw4 n1 n2 n3 n4
  have hsplit : splitWhitespaceN (rustTrim
      (w0 ++ (f1 ++ (w1 ++ (f2 ++ (w2 ++ (f3 ++ (w3 ++ (f4 ++ (w4 ++ (f5 ++ w5))))))))))) 7 =
      some [f1, f2, f3, f4, f5, [], []] := by
    rw [htrim, split_eq_specN m 7 hasc, hs7]
  have hA : ∃ e, parseBearingLine
      (w0 ++ (f1 ++ (w1 ++ (f2 ++ (w2 ++ (f3 ++ (w3 ++ (f4 ++ (w4 ++ (f5 ++ w5)))))))))) =
      some (Except.error e) := by
    simp only [parseBearingLine, hsplit]
    cases FaceDir.fromStr f1 <;> cases parseF64 f2 <;> cases parseF64 f3 <;>
      cases parseF64 f4 <;> cases TurnDir.fromStr f5 <;> simp [parseF64_nil]
  refine ⟨hA, ?_, ?_⟩
  · intro lines res hmem
    obtain ⟨e, he⟩ := hA
    exact getAz_not_ok (fun t ht => by simpa using ht.symm.trans he) lines hmem res
  · intro hf hd2 hd3 hd4 ht5
    obtain ⟨fv, hfv⟩ := Option.isSome_iff_exists.mp hf
    obtain ⟨v2, hv2⟩ := Option.isSome_iff_exists.mp hd2
    obtain ⟨v3, hv3⟩ := Option.isSome_iff_exists.mp hd3
    obtain ⟨v4, hv4⟩ := Option.isSome_iff_exists.mp hd4
    obtain ⟨tv, htv⟩ := Option.isSome_iff_exists.mp ht5
    simp only [parseBearingLine, hsplit, hfv, hv2, hv3, hv4, htv, parseF64_nil]

/-- C8 witness: the five-field line `S 1 2 3 E` is rejected with the
missing distance field and its raw text, the empty string. -/
theorem c8_five_field_line_witness :
    parseBearingLine ['S', ' ', '1', ' ', '2', ' ', '3', ' ', 'E'] =
      some (Except.error (ParseErr.invalidDistance [])) :=
  (c8_five_field_line ['S'] ['1'] ['2'] ['3'] ['E'] [] [' '] [' '] [' '] [' '] []
    (by decide) (by decide) (by decide) (by decide) (by decide)
    (by decide) (by decide) (by decide) (by decide) (by decide) (by decide)
    (by decide) (by decide) (by decide) (by decide)).2.2
    (by decide) (by decide) (by decide) (by decide) (by decide)

/-- C8 counterexample: the line `é 1 2 3 E` has exactly five
whitespace-separated fields, yet the program neither reports a malformed
record nor defaults: it panics (here `none`), because slicing the first
token at byte index 1 falls inside the two-byte character `é`. -/
theorem c8_five_field_line_counterexample :
    parseBearingLine ['é', ' ', '1', ' ', '2', ' ', '3', ' ', 'E'] = none := rfl

end Survey
